import Mathlib

set_option maxRecDepth 8192

/-!
Verification development for the yuuko command-dispatch framework
(`src/Client.js`).  The client's message dispatcher, prefix resolver,
command registry and hot-reload pass are shallowly embedded below; theorems
about the embedding settle the specification claims.

Modelling conventions:
* JS strings are modelled through their character lists (`String.data`), so
  the JS operations `startsWith`, `substr`, and `split(' ')` become list
  operations.  All contents relevant to the claims are ASCII, so the
  UTF-16 / char distinction is immaterial.
* The gateway message object is reduced to the four fields the dispatcher
  reads: author presence, author bot flag, guild flag, and text content.
* A command handler's only observable behaviour at the dispatch boundary is
  whether invoking it raises; this is the `throws` flag.  Handler invocation
  (`command.execute(...)`) is recorded as an explicit `Act.invoke` in the
  dispatch trace, and `emit` calls are recorded as `Act.emit`.
* `require-reload`'s view of the file system is a parameter
  `fs : String → Command` giving the entity currently exported by each file.
-/

deriving instance DecidableEq for Except

/-- JS `s.startsWith(pre)` on the character-list view of strings. -/
def jsStartsWith (s pre : String) : Bool :=
  pre.data.isPrefixOf s.data

/-- JS `s.substr(n)` (drop the first `n` characters). -/
def jsDrop (s : String) (n : Nat) : String :=
  ⟨s.data.drop n⟩

/-- Whitespace characters matched by the JS regex class used in
`mentionPrefixRegExp` (`\s`), restricted to the ASCII range. -/
def jsIsWhitespace (ch : Char) : Bool :=
  ch = ' ' || ch = '\t' || ch = '\n' || ch = '\r' || ch = '\x0b' || ch = '\x0c'

/-- Split a character list at every occurrence of `sep`, keeping empty
segments, as JS `String.prototype.split` does with a single-char separator. -/
def splitCharAux (sep : Char) : List Char → List Char → List (List Char)
  | [], cur => [cur.reverse]
  | ch :: rest, cur =>
    if ch = sep then cur.reverse :: splitCharAux sep rest []
    else splitCharAux sep rest (ch :: cur)

/-- JS `content.split(' ')`. -/
def jsSplitSpace (s : String) : List String :=
  (splitCharAux ' ' s.data []).map String.mk

/-- Truthiness of a JS value that is either a string or `null`/`undefined`:
falsy exactly when it is `null`, `undefined`, or the empty string. -/
def strFalsy : Option String → Bool
  | none => true
  | some s => s.data.isEmpty

/-- Modelled from the spec: the Command Entity (its class `Command.js` is not
under `src/`).  `names` is the ordered name set (entries may be the `null`
sentinel for the bare-mention command), `filename` is the optional origin
path set by `addCommandFile`, and `throws` says whether invoking the
entity's handler raises an exception.  The permission predicate and other
metadata play no role in the claims and are omitted. -/
structure Command where
  names : List (Option String)
  filename : Option String := none
  throws : Bool := false
  deriving DecidableEq

/-- Modelled from the spec: `command.name`, the canonical name, is the first
element of `names` (`Command.js` is not under `src/`; the spec states the
first name is canonical and the rest are aliases). -/
def Command.cname (cmd : Command) : Option String :=
  cmd.names.headD none

/-- The fields of an Eris message object that `handleMessage` reads. -/
structure Message where
  authorPresent : Bool
  authorBot : Bool
  channelGuild : Bool
  content : String
  deriving DecidableEq

/-- Lifecycle events emitted by the client (spec section 6).  The dispatcher
code in `src/Client.js` never emits `errorEvent`; the constructor exists so
that its absence from dispatch traces can be stated. -/
inductive Event where
  | commandLoaded (cmd : Command)
  | preCommand (cmd : Command) (msg : Message)
  | command (cmd : Command) (msg : Message)
  | errorEvent (msg : Message)
  deriving DecidableEq

/-- One observable action of the dispatcher: an `emit` call or a handler
invocation `command.execute(client, msg, args, pfx, nm)` (`nm = none` is the
bare-mention sentinel invocation). -/
inductive Act where
  | emit (e : Event)
  | invoke (cmd : Command) (msg : Message) (args : List String)
      (pfx : Option String) (nm : Option String)
  deriving DecidableEq

/-- Which return point of `handleMessage` terminated the dispatch.
`unmatched` is the spec's `PrefixUnmatched` (the early `return` when content
is falsy and the matched string is falsy or not a mention, and also the
`(null, null)` case); `handlerThrew` means the awaited
`command.execute` raised and the exception escaped `handleMessage`. -/
inductive Outcome where
  | ignoredNoAuthor
  | ignoredBot
  | unmatched
  | bareMentionNoOp
  | commandNotFound
  | dispatched
  | handlerThrew
  deriving DecidableEq

/-- Registry errors raised synchronously by `addCommand`. -/
inductive RegErr where
  | duplicateName (nm : Option String)
  deriving DecidableEq

/-- Client/session state after the `ready` event: the dispatch-relevant
fields of `Client`.  `defaultPfx` is `this.defaultPrefix` (`none` models the
option being absent), and `botId` is `this.user.id`, from which
`mentionPrefixRegExp` is derived. -/
structure ClientState where
  defaultPfx : Option String
  allowMention : Bool
  ignoreBots : Bool
  commands : List Command
  botId : String
  deriving DecidableEq

/-- Constructor options (`prefixStr` models `options.prefix`; `prefix` is a
Lean keyword).  `none` models the JS field being absent or `null`. -/
structure Options where
  prefixStr : Option String := none
  allowMention : Option Bool := none
  ignoreBots : Option Bool := none
  deriving DecidableEq

/-- The `Client` constructor (lines 22-52 of `Client.js`) restricted to the
session flags, plus the bot identity resolved at the `ready` event.
`x == null ? true : x` becomes a match on the `Option`. -/
def mkClient (options : Options) (uid : String) : ClientState :=
  { defaultPfx := options.prefixStr
  , allowMention := match options.allowMention with | none => true | some b => b
  , ignoreBots := match options.ignoreBots with | none => true | some b => b
  , commands := []
  , botId := uid }

/-- The optional single whitespace character consumed by the `\s?` at the end
of `mentionPrefixRegExp`. -/
def mentionWs (core s : String) : String :=
  match (jsDrop s core.data.length).data with
  | [] => core
  | ch :: _ => if jsIsWhitespace ch then core.push ch else core

/-- Matching `msg.content.match(this.mentionPrefixRegExp)` where the regex is
built as `^<@!?ID>\s?` from the bot's user id: returns the matched text, or
`none`.  The `!?` is tried greedily, as a backtracking regex engine does. -/
def mentionMatch (uid : String) (s : String) : Option String :=
  if jsStartsWith s ("<@!" ++ uid ++ ">") then
    some (mentionWs ("<@!" ++ uid ++ ">") s)
  else if jsStartsWith s ("<@" ++ uid ++ ">") then
    some (mentionWs ("<@" ++ uid ++ ">") s)
  else none

/-- `Client#prefixForMessage` (lines 195-199): the default prefix in guild
channels, the empty string elsewhere. -/
def prefixForMessage (c : ClientState) (msg : Message) : Option String :=
  if msg.channelGuild then c.defaultPfx else some ""

/-- `Client#splitPrefixFromContent` (lines 208-225): default-prefix rule,
then mention rule (if `allowMention`), then the empty prefix for direct
messages, else `(null, null)`. -/
def splitPrefixFromContent (c : ClientState) (msg : Message) :
    Option String × Option String :=
  if (prefixForMessage c msg).isSome
      && jsStartsWith msg.content ((prefixForMessage c msg).getD "") then
    (prefixForMessage c msg,
     some (jsDrop msg.content ((prefixForMessage c msg).getD "").data.length))
  else if c.allowMention && (mentionMatch c.botId msg.content).isSome then
    (mentionMatch c.botId msg.content,
     some (jsDrop msg.content
       ((mentionMatch c.botId msg.content).getD "").data.length))
  else if !msg.channelGuild then
    (some "", some msg.content)
  else
    (none, none)

/-- `Client#commandForName` (lines 185-187): first registered command whose
`names` array `includes` the query (which may be the `null` sentinel). -/
def commandForName (c : ClientState) (nm : Option String) : Option Command :=
  c.commands.find? (fun cmd => cmd.names.contains nm)

/-- `Client#addCommand` (lines 128-134): raises a duplicate error when
`commandForName(command.name)` already finds a command; otherwise pushes the
command and emits `commandLoaded`.  (The `instanceof` check is vacuous in
the typed model.) -/
def addCommand (c : ClientState) (cmd : Command) :
    Except RegErr (ClientState × List Act) :=
  if (commandForName c cmd.cname).isSome then
    Except.error (RegErr.duplicateName cmd.cname)
  else
    Except.ok ({ c with commands := c.commands ++ [cmd] },
      [Act.emit (Event.commandLoaded cmd)])

/-- `Client#addCommandFile` (lines 155-160): reload the module from `fs`,
stamp it with its filename, and register it. -/
def addCommandFile (fs : String → Command) (c : ClientState) (fn : String) :
    Except RegErr (ClientState × List Act) :=
  addCommand c { fs fn with filename := some fn }

/-- The tail of `handleMessage` from `let args = content.split(' ')` on
(lines 114-121): split off the candidate command name, look it up, and if
found emit `preCommand`, await the handler, and emit `command`.  A raising
handler propagates after `preCommand` and before `command`. -/
def namedDispatch (c : ClientState) (msg : Message) (content : String)
    (pfx : Option String) : List Act × Outcome :=
  match commandForName c (some ((jsSplitSpace content).headD "")) with
  | none => ([], Outcome.commandNotFound)
  | some cmd =>
    if cmd.throws then
      ([Act.emit (Event.preCommand cmd msg),
        Act.invoke cmd msg (jsSplitSpace content).tail pfx
          (some ((jsSplitSpace content).headD ""))],
       Outcome.handlerThrew)
    else
      ([Act.emit (Event.preCommand cmd msg),
        Act.invoke cmd msg (jsSplitSpace content).tail pfx
          (some ((jsSplitSpace content).headD "")),
        Act.emit (Event.command cmd msg)],
       Outcome.dispatched)

/-- `Client#handleMessage` (lines 100-122).  Note two faithful quirks of the
source: the bare-mention branch calls `defaultCommand.execute` without
emitting `preCommand` and without `await`, and it has no `return`, so
control falls through to the `content.split(' ')` path with the empty
content. -/
def handleMessage (c : ClientState) (msg : Message) : List Act × Outcome :=
  if !msg.authorPresent then ([], Outcome.ignoredNoAuthor)
  else if c.ignoreBots && msg.authorBot then ([], Outcome.ignoredBot)
  else
    match splitPrefixFromContent c msg with
    | (pfx, content) =>
      if strFalsy content then
        if strFalsy pfx || (mentionMatch c.botId (pfx.getD "")).isNone then
          ([], Outcome.unmatched)
        else
          match commandForName c none with
          | none => ([], Outcome.bareMentionNoOp)
          | some dc =>
            (Act.invoke dc msg [] pfx none
               :: (namedDispatch c msg (content.getD "") pfx).1,
             (namedDispatch c msg (content.getD "") pfx).2)
      else
        namedDispatch c msg (content.getD "") pfx

/-- The gateway's `messageCreate` notification stream: each notification
invokes `handleMessage` on the same client state; an exception escaping one
(async) invocation does not unregister the listener or stop the stream. -/
def notificationLoop (c : ClientState) : List Message → List (List Act × Outcome)
  | [] => []
  | m :: rest => handleMessage c m :: notificationLoop c rest

/-- JS truthiness of `command.filename` in `reloadCommands`. -/
def trackedB (cmd : Command) : Bool :=
  !(strFalsy cmd.filename)

/-- The entity that re-registering a tracked command produces: the current
module export of its file, stamped with the filename. -/
def relCmd (fs : String → Command) (cmd : Command) : Command :=
  { fs (cmd.filename.getD "") with filename := some (cmd.filename.getD "") }

/-- The `while (i--)` loop of `Client#reloadCommands` (lines 167-177):
indices run downward from `length - 1`; a tracked command is spliced out and
re-registered through `addCommandFile` (which appends at the end, beyond the
loop's range).  The result carries the successive intermediate registry
states (after the splice and after the re-add); an error carries the registry
state at the moment the exception escapes. -/
def reloadLoop (fs : String → Command) :
    ClientState → Nat → Except (RegErr × ClientState) (ClientState × List ClientState)
  | c, 0 => Except.ok (c, [])
  | c, j+1 =>
    match c.commands[j]? with
    | none => reloadLoop fs c j
    | some cmd =>
      if strFalsy cmd.filename then reloadLoop fs c j
      else
        match addCommandFile fs { c with commands := c.commands.eraseIdx j }
            (cmd.filename.getD "") with
        | Except.error e =>
          Except.error (e, { c with commands := c.commands.eraseIdx j })
        | Except.ok (c2, _) =>
          match reloadLoop fs c2 j with
          | Except.error e => Except.error e
          | Except.ok (fin, snaps) =>
            Except.ok (fin, { c with commands := c.commands.eraseIdx j } :: c2 :: snaps)

/-- `Client#reloadCommands`: run the loop from `i = this.commands.length`. -/
def reloadCommands (fs : String → Command) (c : ClientState) :
    Except (RegErr × ClientState) (ClientState × List ClientState) :=
  reloadLoop fs c c.commands.length

/-- All names registered across a list of commands (the union, with
multiplicity, of the entities' name sets). -/
def regNames (cmds : List Command) : List (Option String) :=
  (cmds.map Command.names).flatten

/-- The filenames carried by the tracked entities of a registry. -/
def fileList (cmds : List Command) : List String :=
  cmds.filterMap Command.filename

/-- `a`'s name set is disjoint from `b`'s. -/
def namesDisjointB (a b : Command) : Bool :=
  a.names.all (fun n => !(b.names.contains n))

/-- No name string is shared between any two entities of the list (the
registry uniqueness invariant of spec sections 3 and 8). -/
def pairwiseDisjoint : List Command → Bool
  | [] => true
  | x :: xs => xs.all (namesDisjointB x) && pairwiseDisjoint xs

/-- Every entity has at least one name. -/
def namesNonEmpty (cmds : List Command) : Bool :=
  cmds.all (fun e => !(e.names.isEmpty))

/-- Every tracked file currently re-loads to an entity with the same name
set as the registered entity (the "files unchanged" hypothesis). -/
def reloadPreservesNames (fs : String → Command) (cmds : List Command) : Bool :=
  cmds.all (fun e => !(trackedB e) || decide ((fs (e.filename.getD "")).names = e.names))

/-- An action is fine with respect to the `preCommand`-before-invocation
discipline when it is not a named invocation, or is a named invocation
immediately preceded by the matching `preCommand` emission. -/
def actionOk (prev : Option Act) (a : Act) : Bool :=
  match a with
  | Act.invoke cmd m _ _ (some _) =>
    decide (prev = some (Act.emit (Event.preCommand cmd m)))
  | _ => true

/-- Every named invocation in the trace is immediately preceded by its
`preCommand` emission. -/
def precededOk : Option Act → List Act → Bool
  | _, [] => true
  | prev, a :: rest => actionOk prev a && precededOk (some a) rest

/-- The action is an invocation of the no-name sentinel command. -/
def isNoNameInvoke : Act → Bool
  | Act.invoke _ _ _ _ none => true
  | _ => false

/-- The action is an emission of the `error` lifecycle event. -/
def isErrorEmit : Act → Bool
  | Act.emit (Event.errorEvent _) => true
  | _ => false

/-! ### Concrete instances used by counterexamples and witnesses -/

/-- A session constructed with default prefix `"!"` whose bot id is `123`. -/
def exClient : ClientState :=
  mkClient { prefixStr := some "!", allowMention := none, ignoreBots := none } "123"

/-- A command whose handler raises. -/
def cmdBoom : Command := { names := [some "boom"], throws := true }

def clientBoom : ClientState :=
  { defaultPfx := some "!", allowMention := true, ignoreBots := true,
    commands := [cmdBoom], botId := "123" }

def msgBoom : Message :=
  { authorPresent := true, authorBot := false, channelGuild := true, content := "!boom" }

def msgPing : Message :=
  { authorPresent := true, authorBot := false, channelGuild := true, content := "!ping" }

/-- The sentinel no-name command. -/
def cmdSentinel : Command := { names := [none] }

def clientSentinel : ClientState :=
  { defaultPfx := some "!", allowMention := true, ignoreBots := true,
    commands := [cmdSentinel], botId := "123" }

def msgMention : Message :=
  { authorPresent := true, authorBot := false, channelGuild := true, content := "<@123>" }

/-- A command registered under the empty-string name. -/
def cmdEmptyName : Command := { names := [some ""] }

def clientEmptyName : ClientState :=
  { defaultPfx := some "!", allowMention := true, ignoreBots := true,
    commands := [cmdEmptyName], botId := "123" }

def msgBangSpace : Message :=
  { authorPresent := true, authorBot := false, channelGuild := true, content := "! " }

def cmdBar : Command := { names := [some "bar"] }

/-- A command whose canonical name is fresh but whose alias collides. -/
def cmdFooBar : Command := { names := [some "foo", some "bar"] }

def clientBar : ClientState :=
  { defaultPfx := some "!", allowMention := true, ignoreBots := true,
    commands := [cmdBar], botId := "123" }

def cmdPing : Command := { names := [some "ping"] }

/-- One tracked command, for the reload witness. -/
def tW : Command := { names := [some "a"], filename := some "f" }

def clientReloadW : ClientState :=
  { defaultPfx := some "!", allowMention := true, ignoreBots := true,
    commands := [tW], botId := "123" }

def fsW : String → Command := fun _ => { names := [some "a"] }

def uCmd : Command := { names := [some "u"] }

def tCmd : Command := { names := [some "t"], filename := some "f" }

/-- An untracked command plus a tracked one whose file now exports a command
clashing with the untracked one's name. -/
def clientClash : ClientState :=
  { defaultPfx := some "!", allowMention := true, ignoreBots := true,
    commands := [uCmd, tCmd], botId := "123" }

def fsClash : String → Command := fun _ => { names := [some "u"] }

def cmdAz : Command := { names := [some "bar", some "z"], filename := some "f" }

def cmdFB : Command := { names := [some "foo", some "bar"], filename := some "g" }

/-- A registry reachable through `addCommand` (the alias `bar` of `cmdFB` was
never checked) in which both entities are tracked and unchanged on disk. -/
def clientShared : ClientState :=
  { defaultPfx := some "!", allowMention := true, ignoreBots := true,
    commands := [cmdAz, cmdFB], botId := "123" }

def fsShared : String → Command := fun fn =>
  if fn = "f" then { names := [some "bar", some "z"] }
  else { names := [some "foo", some "bar"] }

def t8 : Command := { names := [some "a"], filename := some "f" }

def u8 : Command := { names := [some "b"] }

def clientReload8 : ClientState :=
  { defaultPfx := some "!", allowMention := true, ignoreBots := true,
    commands := [t8, u8], botId := "123" }

def fsW8 : String → Command := fun _ => { names := [some "a"] }

def msgBang : Message :=
  { authorPresent := true, authorBot := false, channelGuild := true, content := "!" }

def msgDmPing : Message :=
  { authorPresent := true, authorBot := false, channelGuild := false, content := "ping" }

def msgHello : Message :=
  { authorPresent := true, authorBot := false, channelGuild := true, content := "hello" }

/-- Options with `allowMention` absent and `ignoreBots` explicitly false. -/
def optsMixed : Options :=
  { prefixStr := some "!", allowMention := none, ignoreBots := some false }

def clientEmptyReg : ClientState :=
  { defaultPfx := some "!", allowMention := true, ignoreBots := true,
    commands := [], botId := "123" }

/-- The registry produced by a successful reload of `clientReloadW`. -/
def reloadWfinal : ClientState :=
  { clientReloadW with commands := [{ names := [some "a"], filename := some "f" }] }

/-- The intermediate states of that reload pass (after the splice and after
the re-registration). -/
def reloadWsnaps : List ClientState :=
  [{ clientReloadW with commands := [] }, reloadWfinal]

/-- The registry left behind when reloading `clientShared` raises. -/
def clientSharedErr : ClientState :=
  { clientShared with
      commands := [{ names := [some "foo", some "bar"], filename := some "g" }] }

/-! ### Basic lemmas about the string and list helpers -/

theorem jsStartsWith_empty (s : String) : jsStartsWith s "" = true := by
  have h : ("" : String).data = [] := rfl
  simp [jsStartsWith, h, List.isPrefixOf]

theorem jsDrop_zero (s : String) : jsDrop s 0 = s := rfl

theorem strFalsy_some_empty : strFalsy (some "") = true := rfl

theorem contains_eq_elem {α} [BEq α] (l : List α) (a : α) : l.contains a = l.elem a := rfl

theorem all_tail {α} (p : α → Bool) (l : List α) (h : l.all p = true) :
    l.tail.all p = true := by
  cases l with
  | nil => simp
  | cons a t =>
    simp only [List.all_cons, Bool.and_eq_true] at h
    simpa using h.2

/-! ### Structural lemmas about the dispatcher -/

theorem namedDispatch_precededOk (c : ClientState) (m : Message) (s : String)
    (p : Option String) (prev : Option Act) :
    precededOk prev (namedDispatch c m s p).1 = true := by
  unfold namedDispatch
  cases h : commandForName c (some ((jsSplitSpace s).headD "")) with
  | none => rfl
  | some cmd => by_cases ht : cmd.throws <;> simp [ht, precededOk, actionOk]

theorem namedDispatch_no_noname (c : ClientState) (m : Message) (s : String)
    (p : Option String) :
    ((namedDispatch c m s p).1.all fun a => !(isNoNameInvoke a)) = true := by
  unfold namedDispatch
  cases h : commandForName c (some ((jsSplitSpace s).headD "")) with
  | none => rfl
  | some cmd => by_cases ht : cmd.throws <;> simp [ht, isNoNameInvoke]

theorem namedDispatch_no_error (c : ClientState) (m : Message) (s : String)
    (p : Option String) :
    ((namedDispatch c m s p).1.all fun a => !(isErrorEmit a)) = true := by
  unfold namedDispatch
  cases h : commandForName c (some ((jsSplitSpace s).headD "")) with
  | none => rfl
  | some cmd => by_cases ht : cmd.throws <;> simp [ht, isErrorEmit]

/-- Every dispatch trace is empty, a named-dispatch trace, or a sentinel
invocation followed by the fall-through named-dispatch trace. -/
theorem handleMessage_trace_cases (c : ClientState) (m : Message) :
    (handleMessage c m).1 = [] ∨
    ((handleMessage c m).1
      = (namedDispatch c m ((splitPrefixFromContent c m).2.getD "")
          (splitPrefixFromContent c m).1).1) ∨
    (∃ dc, commandForName c none = some dc ∧
      (handleMessage c m).1
        = Act.invoke dc m [] (splitPrefixFromContent c m).1 none
            :: (namedDispatch c m ((splitPrefixFromContent c m).2.getD "")
                (splitPrefixFromContent c m).1).1) := by
  rcases hs : splitPrefixFromContent c m with ⟨pfx, content⟩
  unfold handleMessage
  rw [hs]
  split
  · exact Or.inl rfl
  split
  · exact Or.inl rfl
  dsimp only
  split
  · split
    · exact Or.inl rfl
    · split
      · exact Or.inl rfl
      · rename_i dc hdc
        exact Or.inr (Or.inr ⟨dc, hdc, rfl⟩)
  · exact Or.inr (Or.inl rfl)

/-! ### Lemmas about the reload pass -/

theorem take_eraseIdx_append {α} (l : List α) (j : Nat) (hjl : j < l.length) (x : α) :
    (l.eraseIdx j ++ [x]).take j = l.take j := by
  rw [List.eraseIdx_eq_take_drop_succ, List.append_assoc, List.take_append_eq_append_take]
  have hlen : (l.take j).length = j := by rw [List.length_take]; omega
  rw [hlen]
  simp [List.take_take]

theorem drop_eraseIdx_append {α} (l : List α) (j : Nat) (hjl : j < l.length) (x : α) :
    (l.eraseIdx j ++ [x]).drop j = l.drop (j + 1) ++ [x] := by
  rw [List.eraseIdx_eq_take_drop_succ, List.append_assoc, List.drop_append_eq_append_drop]
  have hlen : (l.take j).length = j := by rw [List.length_take]; omega
  rw [hlen]
  have h1 : (l.take j).drop j = [] := List.drop_eq_nil_of_le (le_of_eq hlen)
  simp [h1]

/-- Shape of a successful reload pass: the untracked entities keep their
relative order and the tracked ones are re-registered (in reverse processing
order) at the end. -/
theorem reloadLoop_ok_shape (fs : String → Command) :
    ∀ (j : Nat) (c c' : ClientState) (snaps : List ClientState),
      j ≤ c.commands.length →
      reloadLoop fs c j = Except.ok (c', snaps) →
      c'.commands =
        ((c.commands.take j).filter (fun x => !(trackedB x))) ++ c.commands.drop j ++
        (((c.commands.take j).filter trackedB).reverse.map (relCmd fs)) := by
  intro j
  induction j with
  | zero =>
    intro c c' snaps _ hok
    simp only [reloadLoop, Except.ok.injEq, Prod.mk.injEq] at hok
    obtain ⟨h1, _⟩ := hok
    subst h1
    simp
  | succ j ih =>
    intro c c' snaps hj hok
    have hjl : j < c.commands.length := by omega
    have hje : c.commands[j]? = some c.commands[j] := List.getElem?_eq_getElem hjl
    have h1 : c.commands.take (j + 1) = c.commands.take j ++ [c.commands[j]] := by
      rw [List.take_succ, hje, Option.toList_some]
    have h2 : c.commands.drop j = c.commands[j] :: c.commands.drop (j + 1) :=
      List.drop_eq_getElem_cons hjl
    simp only [reloadLoop, hje] at hok
    split at hok
    · -- untracked entry: the loop just recurses
      rename_i hfalsy
      have hshape := ih c c' snaps (le_of_lt hjl) hok
      have htb : trackedB c.commands[j] = false := by simp [trackedB, hfalsy]
      rw [hshape, h1, h2]
      generalize hcmd : c.commands[j] = e
      rw [hcmd] at htb
      generalize c.commands.take j = A
      generalize c.commands.drop (j + 1) = D
      simp [List.filter_append, htb, List.append_assoc]
    · -- tracked entry: splice, re-register, recurse
      rename_i hfalsy
      simp only [addCommandFile, addCommand] at hok
      split at hok
      · exact absurd hok (by simp)
      · rename_i c2v sndv heq
        split at heq
        · exact absurd heq (by simp)
        · simp only [Except.ok.injEq, Prod.mk.injEq] at heq
          obtain ⟨hc2, _⟩ := heq
          subst hc2
          split at hok
          · exact absurd hok (by simp)
          · rename_i fin snaps2 hrec
            simp only [Except.ok.injEq, Prod.mk.injEq] at hok
            obtain ⟨hfin, _⟩ := hok
            subst hfin
            have hlen2 : j ≤ (c.commands.eraseIdx j ++
                [{ fs (c.commands[j].filename.getD "") with
                    filename := some (c.commands[j].filename.getD "") }]).length := by
              rw [List.length_append, List.length_eraseIdx_of_lt hjl]
              simp
              omega
            have hshape := ih _ fin snaps2 hlen2 hrec
            dsimp only at hshape
            rw [take_eraseIdx_append _ _ hjl, drop_eraseIdx_append _ _ hjl] at hshape
            have htb : trackedB c.commands[j] = true := by simp [trackedB, hfalsy]
            rw [hshape, h1]
            generalize hcmd : c.commands[j] = e
            rw [hcmd] at htb
            generalize c.commands.take j = A
            generalize c.commands.drop (j + 1) = D
            simp [List.filter_append, htb, relCmd, List.append_assoc]

/-- Every intermediate state of a successful reload pass keeps at most one
entity per file, provided the initial registry does. -/
theorem reloadLoop_ok_nodupFiles (fs : String → Command) :
    ∀ (j : Nat) (c c' : ClientState) (snaps : List ClientState),
      j ≤ c.commands.length →
      (fileList c.commands).Nodup →
      reloadLoop fs c j = Except.ok (c', snaps) →
      (∀ s ∈ snaps, (fileList s.commands).Nodup) ∧ (fileList c'.commands).Nodup := by
  intro j
  induction j with
  | zero =>
    intro c c' snaps _ hnd hok
    simp only [reloadLoop, Except.ok.injEq, Prod.mk.injEq] at hok
    obtain ⟨h1, h2⟩ := hok
    subst h1
    subst h2
    exact ⟨by simp, hnd⟩
  | succ j ih =>
    intro c c' snaps hj hnd hok
    have hjl : j < c.commands.length := by omega
    have hje : c.commands[j]? = some c.commands[j] := List.getElem?_eq_getElem hjl
    have h2 : c.commands.drop j = c.commands[j] :: c.commands.drop (j + 1) :=
      List.drop_eq_getElem_cons hjl
    simp only [reloadLoop, hje] at hok
    split at hok
    · exact ih c c' snaps (le_of_lt hjl) hnd hok
    · rename_i hfalsy
      rw [Bool.not_eq_true] at hfalsy
      obtain ⟨fn, hfn⟩ : ∃ fn, c.commands[j].filename = some fn := by
        cases hx : c.commands[j].filename with
        | none => rw [hx] at hfalsy; simp [strFalsy] at hfalsy
        | some fn => exact ⟨fn, rfl⟩
      have hgetD : c.commands[j].filename.getD "" = fn := by rw [hfn]; rfl
      have hdecomp : c.commands
          = c.commands.take j ++ c.commands[j] :: c.commands.drop (j + 1) := by
        conv_lhs => rw [← List.take_append_drop j c.commands, h2]
      have hfiles : fileList c.commands
          = fileList (c.commands.take j) ++ fn :: fileList (c.commands.drop (j + 1)) := by
        conv_lhs => rw [hdecomp]
        simp only [fileList, List.filterMap_append, List.filterMap_cons, hfn]
      have hmid : (fn :: (fileList (c.commands.take j)
          ++ fileList (c.commands.drop (j + 1)))).Nodup := by
        rw [hfiles] at hnd
        exact List.nodup_middle.mp hnd
      have herase : fileList (c.commands.eraseIdx j)
          = fileList (c.commands.take j) ++ fileList (c.commands.drop (j + 1)) := by
        rw [List.eraseIdx_eq_take_drop_succ]
        simp [fileList, List.filterMap_append]
      have hnd1 : (fileList (c.commands.eraseIdx j)).Nodup := by
        rw [herase]
        exact (List.nodup_cons.mp hmid).2
      have hnotmem : fn ∉ fileList (c.commands.eraseIdx j) := by
        rw [herase]
        exact (List.nodup_cons.mp hmid).1
      simp only [addCommandFile, addCommand] at hok
      split at hok
      · exact absurd hok (by simp)
      · rename_i c2v sndv heq
        split at heq
        · exact absurd heq (by simp)
        · simp only [Except.ok.injEq, Prod.mk.injEq] at heq
          obtain ⟨hc2, _⟩ := heq
          subst hc2
          split at hok
          · exact absurd hok (by simp)
          · rename_i fin snaps2 hrec
            simp only [Except.ok.injEq, Prod.mk.injEq] at hok
            obtain ⟨hfin, hsnaps⟩ := hok
            subst hfin
            subst hsnaps
            have hfilesc2 : fileList (c.commands.eraseIdx j ++
                [{ fs (c.commands[j].filename.getD "") with
                    filename := some (c.commands[j].filename.getD "") }])
                = fileList (c.commands.eraseIdx j) ++ [fn] := by
              simp [fileList, List.filterMap_append, List.filterMap_cons, hgetD]
            have hndc2 : (fileList (c.commands.eraseIdx j ++
                [{ fs (c.commands[j].filename.getD "") with
                    filename := some (c.commands[j].filename.getD "") }])).Nodup := by
              rw [hfilesc2]
              rw [List.nodup_append_comm]
              exact List.nodup_cons.mpr ⟨hnotmem, hnd1⟩
            have hlen2 : j ≤ (c.commands.eraseIdx j ++
                [{ fs (c.commands[j].filename.getD "") with
                    filename := some (c.commands[j].filename.getD "") }]).length := by
              rw [List.length_append, List.length_eraseIdx_of_lt hjl]
              simp
              omega
            obtain ⟨hsn, hfinnd⟩ := ih _ fin snaps2 hlen2 (by dsimp only; exact hndc2) hrec
            refine ⟨?_, hfinnd⟩
            intro s hs
            rcases List.mem_cons.mp hs with rfl | hs
            · dsimp only
              exact hnd1
            rcases List.mem_cons.mp hs with rfl | hs
            · dsimp only
              exact hndc2
            · exact hsn s hs

theorem namesDisjointB_iff (a b : Command) :
    namesDisjointB a b = true ↔ ∀ n ∈ a.names, n ∉ b.names := by
  simp [namesDisjointB, contains_eq_elem, List.elem_eq_mem]

theorem namesDisjointB_symm {a b : Command} (h : namesDisjointB a b = true) :
    namesDisjointB b a = true := by
  rw [namesDisjointB_iff] at *
  intro n hn hna
  exact h n hna hn

theorem namesDisjointB_congr {a b b' : Command} (h : b.names = b'.names) :
    namesDisjointB a b = namesDisjointB a b' := by
  simp [namesDisjointB, h]

theorem pairwiseDisjoint_iff (l : List Command) :
    pairwiseDisjoint l = true ↔ l.Pairwise (fun a b => namesDisjointB a b = true) := by
  induction l with
  | nil => simp [pairwiseDisjoint]
  | cons x xs ih =>
    simp [pairwiseDisjoint, List.all_eq_true, List.pairwise_cons, ih]

theorem headD_mem {α} (l : List α) (d : α) (h : l ≠ []) : l.headD d ∈ l := by
  cases l with
  | nil => exact absurd rfl h
  | cons a t => simp [List.headD]

theorem mem_regNames {n : Option String} {cmds : List Command} :
    n ∈ regNames cmds ↔ ∃ e ∈ cmds, n ∈ e.names := by
  constructor
  · intro h
    simp only [regNames, List.mem_flatten, List.mem_map] at h
    obtain ⟨a, ⟨e, he, rfl⟩, hn⟩ := h
    exact ⟨e, he, hn⟩
  · rintro ⟨e, he, hn⟩
    simp only [regNames, List.mem_flatten, List.mem_map]
    exact ⟨e.names, ⟨e, he, rfl⟩, hn⟩

/-- With unchanged files, a reloaded tracked entity keeps its name set. -/
theorem relCmd_names_of_pres {fs : String → Command} {cmds : List Command} {t : Command}
    (hpres : reloadPreservesNames fs cmds = true) (hmem : t ∈ cmds)
    (htr : trackedB t = true) : (relCmd fs t).names = t.names := by
  have hx := (List.all_eq_true.mp hpres) _ hmem
  rw [htr] at hx
  simp only [Bool.not_true, Bool.false_or, decide_eq_true_eq] at hx
  have hproj : (relCmd fs t).names = (fs (t.filename.getD "")).names := rfl
  rw [hproj]
  exact hx

/-- Under the registry uniqueness invariant and unchanged files, the reload
pass never raises a duplicate-name error. -/
theorem reloadLoop_ok_of_disjoint (fs : String → Command) :
    ∀ (j : Nat) (c : ClientState),
      j ≤ c.commands.length →
      namesNonEmpty c.commands = true →
      pairwiseDisjoint c.commands = true →
      reloadPreservesNames fs c.commands = true →
      ∃ res, reloadLoop fs c j = Except.ok res := by
  intro j
  induction j with
  | zero =>
    intro c _ _ _ _
    exact ⟨(c, []), rfl⟩
  | succ j ih =>
    intro c hj hne hpd hpres
    have hjl : j < c.commands.length := by omega
    have hje : c.commands[j]? = some c.commands[j] := List.getElem?_eq_getElem hjl
    by_cases hfalsy : strFalsy c.commands[j].filename = true
    · obtain ⟨res, hres⟩ := ih c (le_of_lt hjl) hne hpd hpres
      refine ⟨res, ?_⟩
      simp [reloadLoop, hje, hfalsy, hres]
    · rw [Bool.not_eq_true] at hfalsy
      obtain ⟨fn, hfn⟩ : ∃ fn, c.commands[j].filename = some fn := by
        cases hx : c.commands[j].filename with
        | none => rw [hx] at hfalsy; simp [strFalsy] at hfalsy
        | some fn => exact ⟨fn, rfl⟩
      have h2 : c.commands.drop j = c.commands[j] :: c.commands.drop (j + 1) :=
        List.drop_eq_getElem_cons hjl
      have hcmdmem : c.commands[j] ∈ c.commands := List.getElem_mem hjl
      have htbj : trackedB c.commands[j] = true := by simp [trackedB, hfalsy]
      have hnames_new : (fs (c.commands[j].filename.getD "")).names = c.commands[j].names := by
        have hx := (List.all_eq_true.mp hpres) _ hcmdmem
        rw [htbj] at hx
        simpa using hx
      have hne_names : c.commands[j].names ≠ [] := by
        have hx := (List.all_eq_true.mp hne) _ hcmdmem
        simpa using hx
      have hdecomp : c.commands
          = c.commands.take j ++ c.commands[j] :: c.commands.drop (j + 1) := by
        conv_lhs => rw [← List.take_append_drop j c.commands, h2]
      have hpw : (c.commands.take j
          ++ c.commands[j] :: c.commands.drop (j + 1)).Pairwise
            (fun a b => namesDisjointB a b = true) := by
        rw [← hdecomp]
        exact (pairwiseDisjoint_iff _).mp hpd
      have hpw2 := (List.pairwise_middle (fun hx => namesDisjointB_symm hx)).mp hpw
      obtain ⟨hdisj_all, hpw_rest⟩ := List.pairwise_cons.mp hpw2
      have herase_eq : c.commands.eraseIdx j
          = c.commands.take j ++ c.commands.drop (j + 1) :=
        List.eraseIdx_eq_take_drop_succ _ _
      have hcname : (Command.cname { fs (c.commands[j].filename.getD "") with
          filename := some (c.commands[j].filename.getD "") }) ∈ c.commands[j].names := by
        have hproj : ({ fs (c.commands[j].filename.getD "") with
            filename := some (c.commands[j].filename.getD "") } : Command).names
            = (fs (c.commands[j].filename.getD "")).names := rfl
        simp only [Command.cname, hproj]
        rw [hnames_new]
        exact headD_mem _ _ hne_names
      have hfind : commandForName { c with commands := c.commands.eraseIdx j }
          (Command.cname { fs (c.commands[j].filename.getD "") with
            filename := some (c.commands[j].filename.getD "") }) = none := by
        rw [commandForName, List.find?_eq_none]
        intro e he
        dsimp only at he
        rw [herase_eq] at he
        have hdisj := hdisj_all e he
        rw [namesDisjointB_iff] at hdisj
        have hnm := hdisj _ hcname
        simp [contains_eq_elem, List.elem_eq_mem, hnm]
      have hne2 : namesNonEmpty (c.commands.eraseIdx j
          ++ [{ fs (c.commands[j].filename.getD "") with
              filename := some (c.commands[j].filename.getD "") }]) = true := by
        simp only [namesNonEmpty, List.all_eq_true] at hne ⊢
        intro e he
        rcases List.mem_append.mp he with he | he
        · exact hne _ ((List.eraseIdx_sublist _ j).subset he)
        · rcases List.mem_singleton.mp he with rfl
          have hx : (fs (c.commands[j].filename.getD "")).names ≠ [] := by
            rw [hnames_new]
            exact hne_names
          simpa using hx
      have hpd2 : pairwiseDisjoint (c.commands.eraseIdx j
          ++ [{ fs (c.commands[j].filename.getD "") with
              filename := some (c.commands[j].filename.getD "") }]) = true := by
        rw [pairwiseDisjoint_iff, List.pairwise_append]
        refine ⟨?_, by simp, ?_⟩
        · rw [herase_eq]
          exact hpw_rest
        · intro a ha b hb
          rcases List.mem_singleton.mp hb with rfl
          have hmm : ({ fs (c.commands[j].filename.getD "") with
              filename := some (c.commands[j].filename.getD "") } : Command).names
              = c.commands[j].names := hnames_new
          rw [namesDisjointB_congr hmm]
          rw [herase_eq] at ha
          exact namesDisjointB_symm (hdisj_all a ha)
      have hpres2 : reloadPreservesNames fs (c.commands.eraseIdx j
          ++ [{ fs (c.commands[j].filename.getD "") with
              filename := some (c.commands[j].filename.getD "") }]) = true := by
        simp only [reloadPreservesNames, List.all_eq_true] at hpres ⊢
        intro e he
        rcases List.mem_append.mp he with he | he
        · exact hpres _ ((List.eraseIdx_sublist _ j).subset he)
        · rcases List.mem_singleton.mp he with rfl
          simp
      have hlen2 : j ≤ (c.commands.eraseIdx j
          ++ [{ fs (c.commands[j].filename.getD "") with
              filename := some (c.commands[j].filename.getD "") }]).length := by
        rw [List.length_append, List.length_eraseIdx_of_lt hjl]
        simp
        omega
      obtain ⟨⟨fin, snaps2⟩, hres⟩ := ih { c with commands := c.commands.eraseIdx j
          ++ [{ fs (c.commands[j].filename.getD "") with
              filename := some (c.commands[j].filename.getD "") }] }
        hlen2 hne2 hpd2 hpres2
      refine ⟨(fin, { c with commands := c.commands.eraseIdx j }
          :: { c with commands := c.commands.eraseIdx j
              ++ [{ fs (c.commands[j].filename.getD "") with
                  filename := some (c.commands[j].filename.getD "") }] } :: snaps2), ?_⟩
      simp [reloadLoop, hje, hfalsy, addCommandFile, addCommand, hfind, hres]

/-! ### Claim C1: handler errors at the dispatch boundary -/

/-- C1 counterexample: a message invoking a command whose handler raises.
The dispatch trace is exactly `preCommand` followed by the invocation: the
exception escapes `handleMessage` (outcome `handlerThrew`), no `error`
lifecycle event is emitted, and no `command` event follows — refuting the
claim that the dispatcher catches the exception and emits `error`. -/
theorem handlerError_not_caught_cex :
    handleMessage clientBoom msgBoom
      = ([Act.emit (Event.preCommand cmdBoom msgBoom),
          Act.invoke cmdBoom msgBoom [] (some "!") (some "boom")],
         Outcome.handlerThrew) ∧
    ((handleMessage clientBoom msgBoom).1.all fun a => !(isErrorEmit a)) = true := by
  decide

/-- C1 (amended): the dispatcher never emits the `error` lifecycle event in
any dispatch trace (it does not catch handler exceptions at all; the
rejection escapes the per-message dispatch), and the notification loop is
unaffected: every message is dispatched against the same client state, so a
message following one whose handler threw is dispatched exactly as it would
be on its own. -/
theorem handlerError_isolation (c : ClientState) (m1 m2 : Message) :
    ((handleMessage c m1).1.all fun a => !(isErrorEmit a)) = true ∧
    notificationLoop c [m1, m2] = [handleMessage c m1, handleMessage c m2] := by
  refine ⟨?_, rfl⟩
  rcases handleMessage_trace_cases c m1 with h | h | ⟨dc, hdc, h⟩ <;> rw [h]
  · rfl
  · exact namedDispatch_no_error c m1 _ _
  · simpa [isErrorEmit] using
      namedDispatch_no_error c m1 ((splitPrefixFromContent c m1).2.getD "")
        (splitPrefixFromContent c m1).1

/-- C1 witness: the amended statement at the throwing-handler client, for a
throwing first message and an ordinary second message. -/
theorem handlerError_isolation_witness :
    ((handleMessage clientBoom msgBoom).1.all fun a => !(isErrorEmit a)) = true ∧
    notificationLoop clientBoom [msgBoom, msgPing]
      = [handleMessage clientBoom msgBoom, handleMessage clientBoom msgPing] :=
  handlerError_isolation clientBoom msgBoom msgPing

/-! ### Claim C2: duplicate-name check on registration -/

/-- C2 counterexample: `cmdFooBar`'s alias `bar` already belongs to the
registered `cmdBar`, yet `addCommand` succeeds, because the code only looks
up the new entity's canonical name `foo` — refuting the claim that
registration fails whenever any name in the entity's name set collides. -/
theorem addCommand_alias_collision_cex :
    addCommand clientBar cmdFooBar
      = Except.ok ({ clientBar with commands := [cmdBar, cmdFooBar] },
          [Act.emit (Event.commandLoaded cmdFooBar)]) ∧
    some "bar" ∈ cmdFooBar.names ∧ some "bar" ∈ cmdBar.names := by decide

/-- C2 (amended): `addCommand` raises a duplicate-name error exactly when the
entity's canonical (first) name occurs in some registered entity's name set;
aliases of the new entity are not checked.  When the canonical name does not
collide, the entity is appended and a `commandLoaded` event is emitted. -/
theorem addCommand_canonical_spec (c : ClientState) (cmd : Command) :
    ((∃ e ∈ c.commands, cmd.cname ∈ e.names) →
      addCommand c cmd = Except.error (RegErr.duplicateName cmd.cname)) ∧
    ((∀ e ∈ c.commands, cmd.cname ∉ e.names) →
      addCommand c cmd = Except.ok ({ c with commands := c.commands ++ [cmd] },
        [Act.emit (Event.commandLoaded cmd)])) := by
  constructor
  · rintro ⟨e, he, hn⟩
    have hs : (commandForName c cmd.cname).isSome := by
      rw [commandForName, List.find?_isSome]
      exact ⟨e, he, by simpa [contains_eq_elem, List.elem_eq_mem] using hn⟩
    simp [addCommand, hs]
  · intro hall
    have hn : commandForName c cmd.cname = none := by
      rw [commandForName, List.find?_eq_none]
      intro e he
      simpa [contains_eq_elem, List.elem_eq_mem] using hall e he
    simp [addCommand, hn]

/-- C2 witness: registering a fresh command into an empty registry appends it
and emits `commandLoaded`. -/
theorem addCommand_canonical_spec_witness :
    addCommand clientEmptyReg cmdPing
      = Except.ok ({ clientEmptyReg with commands := [cmdPing] },
          [Act.emit (Event.commandLoaded cmdPing)]) :=
  (addCommand_canonical_spec clientEmptyReg cmdPing).2 (by decide)

/-! ### Claim C3: `preCommand` precedes invocation -/

/-- C3 counterexample: a bare mention with a registered sentinel command.
The dispatch trace is exactly one handler invocation of the sentinel with no
`preCommand` (or any other) event before it — refuting the claim that every
handler invocation, including the sentinel one, is preceded by a
`preCommand` event. -/
theorem bare_mention_no_preCommand_cex :
    handleMessage clientSentinel msgMention
      = ([Act.invoke cmdSentinel msgMention [] (some "<@123>") none],
         Outcome.commandNotFound) := by decide

/-- C3 (amended): a `preCommand` event carrying the command and the message
immediately precedes every handler invocation made with a command-name
token; the sentinel no-name invocation triggered by a bare mention is the
first action of its dispatch trace and is performed without a preceding
`preCommand` event. -/
theorem preCommand_precedes_named_invocation (c : ClientState) (m : Message) :
    precededOk none (handleMessage c m).1 = true ∧
    ((handleMessage c m).1.tail.all fun a => !(isNoNameInvoke a)) = true := by
  rcases handleMessage_trace_cases c m with h | h | ⟨dc, hdc, h⟩ <;> rw [h]
  · exact ⟨rfl, rfl⟩
  · exact ⟨namedDispatch_precededOk c m _ _ none,
      all_tail _ _ (namedDispatch_no_noname c m _ _)⟩
  · constructor
    · simp [precededOk, actionOk, namedDispatch_precededOk]
    · simpa using namedDispatch_no_noname c m _ _

/-- C3 witness: the amended statement at a named-command dispatch. -/
theorem preCommand_precedes_named_invocation_witness :
    precededOk none (handleMessage clientBoom msgBoom).1 = true ∧
    ((handleMessage clientBoom msgBoom).1.tail.all fun a => !(isNoNameInvoke a)) = true :=
  preCommand_precedes_named_invocation clientBoom msgBoom

/-! ### Claim C4: empty or whitespace-only remainder -/

/-- C4 counterexample: with a command registered under the empty-string name,
the guild message `"! "` has the whitespace-only remainder `" "` and a
non-mention prefix, yet dispatch proceeds: the lookup of the empty first
token succeeds, `preCommand` is emitted and the handler is invoked —
refuting the claim for whitespace-only (as opposed to empty) remainders. -/
theorem whitespace_remainder_dispatch_cex :
    splitPrefixFromContent clientEmptyName msgBangSpace = (some "!", some " ") ∧
    mentionMatch clientEmptyName.botId "!" = none ∧
    handleMessage clientEmptyName msgBangSpace
      = ([Act.emit (Event.preCommand cmdEmptyName msgBangSpace),
          Act.invoke cmdEmptyName msgBangSpace [""] (some "!") (some ""),
          Act.emit (Event.command cmdEmptyName msgBangSpace)],
         Outcome.dispatched) := by decide

/-- C4 (amended): for a message that passes the author checks and whose
resolved remainder is exactly empty (the JS falsiness test `!content` does
not treat whitespace-only strings as empty), if the matched prefix is falsy
or is not a mention-prefix match, dispatch returns the `PrefixUnmatched`
outcome with an empty trace: no lookup, no handler invocation, no events. -/
theorem empty_remainder_unmatched (c : ClientState) (msg : Message) (pfx : Option String)
    (hAuth : msg.authorPresent = true)
    (hBot : (c.ignoreBots && msg.authorBot) = false)
    (hsplit : splitPrefixFromContent c msg = (pfx, some ""))
    (hNoMention : strFalsy pfx = true ∨ (mentionMatch c.botId (pfx.getD "")).isNone = true) :
    handleMessage c msg = ([], Outcome.unmatched) := by
  unfold handleMessage
  rw [hsplit]
  rcases hNoMention with h | h <;> simp [hAuth, hBot, strFalsy_some_empty, h]

/-- C4 witness: the guild message `"!"` (empty remainder, non-mention
prefix) terminates with the `PrefixUnmatched` outcome and an empty trace. -/
theorem empty_remainder_unmatched_witness :
    splitPrefixFromContent exClient msgBang = (some "!", some "") ∧
    handleMessage exClient msgBang = ([], Outcome.unmatched) :=
  ⟨by decide,
    empty_remainder_unmatched exClient msgBang (some "!") (by decide) (by decide)
      (by decide) (Or.inr (by decide))⟩

/-! ### Claim C5: prefix-resolution examples -/

/-- C5: with default prefix `"!"`, the guild message `"!ping"` resolves to
`("!", "ping")`, the direct message `"ping"` resolves to `("", "ping")`, and
the guild message `"hello"`, matching neither the prefix nor a mention,
resolves to `(null, null)`. -/
theorem prefix_resolution_examples :
    splitPrefixFromContent exClient msgPing = (some "!", some "ping") ∧
    splitPrefixFromContent exClient msgDmPing = (some "", some "ping") ∧
    splitPrefixFromContent exClient msgHello = (none, none) := by decide

/-! ### Claim C6: first-match lookup -/

/-- C6: `commandForName` returns the first entity (in insertion order) whose
name set contains the query — when it returns an entity, that entity's names
contain the query and every earlier entity's names do not — and returns
nothing exactly when no registered entity's name set contains the query. -/
theorem commandForName_first_match (c : ClientState) (nm : Option String) :
    (commandForName c nm = none ↔ ∀ e ∈ c.commands, nm ∉ e.names) ∧
    (∀ cmd : Command, commandForName c nm = some cmd ↔
      nm ∈ cmd.names ∧ ∃ l1 l2, c.commands = l1 ++ cmd :: l2 ∧ ∀ e ∈ l1, nm ∉ e.names) := by
  constructor
  · rw [commandForName, List.find?_eq_none]
    simp [contains_eq_elem, List.elem_eq_mem]
  · intro cmd
    rw [commandForName, List.find?_eq_some]
    simp [contains_eq_elem, List.elem_eq_mem]

/-- C6 witness: looking up `"boom"` in the one-command registry finds the
command, first-match decomposition included. -/
theorem commandForName_first_match_witness :
    commandForName clientBoom (some "boom") = some cmdBoom ↔
      some "boom" ∈ cmdBoom.names ∧ ∃ l1 l2, clientBoom.commands = l1 ++ cmdBoom :: l2 ∧
        ∀ e ∈ l1, some "boom" ∉ e.names :=
  (commandForName_first_match clientBoom (some "boom")).2 cmdBoom

/-! ### Claim C7: the reload pass -/

/-- C7 counterexample: reloading `clientClash` raises a duplicate-name error
(the file now exports a command whose canonical name collides with the
untracked entity), leaving a registry in which the tracked entity has been
removed but not re-registered — refuting the claim as stated for every
registry state and every file-system content. -/
theorem reload_throw_cex :
    reloadCommands fsClash clientClash
      = Except.error (RegErr.duplicateName (some "u"),
          { clientClash with commands := [uCmd] }) ∧
    tCmd ∈ clientClash.commands ∧ tCmd.filename = some "f" ∧
    uCmd.filename = none := by decide

/-- C7 (amended): provided no two entities of the registry carry the same
filename and the reload pass completes without raising, `reloadCommands`
removes and re-registers exactly the tracked entities — the final registry
is the untracked entities in their original order followed by the reloaded
tracked entities — leaves every untracked entity untouched, and no
intermediate registry state (nor the final one) contains two entities with
the same filename. -/
theorem reloadCommands_tracked_spec (fs : String → Command) (c c' : ClientState)
    (snaps : List ClientState)
    (hnd : (fileList c.commands).Nodup)
    (hok : reloadCommands fs c = Except.ok (c', snaps)) :
    c'.commands = (c.commands.filter (fun x => !(trackedB x)))
      ++ ((c.commands.filter trackedB).reverse.map (relCmd fs)) ∧
    (∀ s ∈ snaps, (fileList s.commands).Nodup) ∧
    (fileList c'.commands).Nodup := by
  have hshape := reloadLoop_ok_shape fs c.commands.length c c' snaps (le_refl _) hok
  rw [List.take_length, List.drop_length] at hshape
  have hnds := reloadLoop_ok_nodupFiles fs c.commands.length c c' snaps (le_refl _) hnd hok
  exact ⟨by simpa using hshape, hnds.1, hnds.2⟩

/-- C7 witness: reloading a registry with one tracked command (its file
unchanged) succeeds; the registry shape and the per-file uniqueness of every
intermediate state follow from the claim theorem. -/
theorem reloadCommands_tracked_spec_witness :
    (fileList clientReloadW.commands).Nodup ∧
    (reloadWfinal.commands = (clientReloadW.commands.filter (fun x => !(trackedB x)))
      ++ ((clientReloadW.commands.filter trackedB).reverse.map (relCmd fsW)) ∧
     (∀ s ∈ reloadWsnaps, (fileList s.commands).Nodup) ∧
     (fileList reloadWfinal.commands).Nodup) :=
  ⟨by decide,
    reloadCommands_tracked_spec fsW clientReloadW reloadWfinal reloadWsnaps
      (by decide) (by decide)⟩

/-! ### Claim C8: reload with unchanged files preserves the name sets -/

/-- C8 counterexample: in `clientShared` (a registry reachable through
`addCommand`, where two entities share the alias `bar`) both files re-load
to entities with exactly the same name sets, yet the reload pass raises a
duplicate-name error and the name `z` — present before the pass — is absent
from the registry it leaves behind, refuting the claim as stated. -/
theorem reload_names_lost_cex :
    (fsShared "f").names = cmdAz.names ∧
    (fsShared "g").names = cmdFB.names ∧
    reloadCommands fsShared clientShared
      = Except.error (RegErr.duplicateName (some "bar"), clientSharedErr) ∧
    some "z" ∈ regNames clientShared.commands ∧
    some "z" ∉ regNames clientSharedErr.commands := by decide

/-- C8 (amended): if every entity has a nonempty name set, no name string is
shared between two registered entities (the registry uniqueness invariant),
and every tracked file re-loads to an entity with the same name set as the
entity it replaces, then the reload pass succeeds and the union of the name
sets of the resulting registry is the same as before the reload. -/
theorem reloadCommands_preserves_names (fs : String → Command) (c : ClientState)
    (hne : namesNonEmpty c.commands = true)
    (hpd : pairwiseDisjoint c.commands = true)
    (hpres : reloadPreservesNames fs c.commands = true) :
    ∃ c' snaps, reloadCommands fs c = Except.ok (c', snaps) ∧
      ∀ n, (n ∈ regNames c'.commands ↔ n ∈ regNames c.commands) := by
  obtain ⟨⟨c', snaps⟩, hok⟩ :=
    reloadLoop_ok_of_disjoint fs c.commands.length c (le_refl _) hne hpd hpres
  refine ⟨c', snaps, hok, ?_⟩
  have hshape := reloadLoop_ok_shape fs c.commands.length c c' snaps (le_refl _) hok
  rw [List.take_length, List.drop_length] at hshape
  intro n
  rw [mem_regNames, mem_regNames]
  constructor
  · rintro ⟨e, he, hn⟩
    rw [hshape] at he
    simp only [List.append_nil, List.mem_append, List.mem_map, List.mem_reverse,
      List.mem_filter] at he
    rcases he with ⟨hmem, _⟩ | ⟨t, ⟨hmem, htr⟩, rfl⟩
    · exact ⟨e, hmem, hn⟩
    · refine ⟨t, hmem, ?_⟩
      rwa [relCmd_names_of_pres hpres hmem htr] at hn
  · rintro ⟨e, he, hn⟩
    by_cases htr : trackedB e = true
    · refine ⟨relCmd fs e, ?_, ?_⟩
      · rw [hshape]
        simp only [List.append_nil, List.mem_append, List.mem_map, List.mem_reverse,
          List.mem_filter]
        exact Or.inr ⟨e, ⟨he, htr⟩, rfl⟩
      · rwa [relCmd_names_of_pres hpres he htr]
    · refine ⟨e, ?_, hn⟩
      rw [hshape]
      simp only [List.append_nil, List.mem_append, List.mem_map, List.mem_reverse,
        List.mem_filter]
      exact Or.inl ⟨he, by simpa using htr⟩

/-- C8 witness: a registry with one tracked and one untracked command, the
tracked file unchanged; the hypotheses hold by computation and the reload
pass preserves the registered names. -/
theorem reloadCommands_preserves_names_witness :
    namesNonEmpty clientReload8.commands = true ∧
    pairwiseDisjoint clientReload8.commands = true ∧
    reloadPreservesNames fsW8 clientReload8.commands = true ∧
    (∃ c' snaps, reloadCommands fsW8 clientReload8 = Except.ok (c', snaps) ∧
      ∀ n, (n ∈ regNames c'.commands ↔ n ∈ regNames clientReload8.commands)) :=
  ⟨by decide, by decide, by decide,
    reloadCommands_preserves_names fsW8 clientReload8 (by decide) (by decide) (by decide)⟩

/-! ### Claim C9: direct messages always resolve with the empty prefix -/

/-- C9: for every direct message, the contextual prefix is the empty string,
the default-prefix branch's guard is satisfied (every content starts with
the empty string), and resolution returns `("", full content)` — so the
mention branch and the direct-message fallback branch are never reached, and
`(null, null)` is never returned for direct messages. -/
theorem dm_always_empty_prefix (c : ClientState) (msg : Message)
    (h : msg.channelGuild = false) :
    prefixForMessage c msg = some "" ∧
    ((prefixForMessage c msg).isSome
      && jsStartsWith msg.content ((prefixForMessage c msg).getD "")) = true ∧
    splitPrefixFromContent c msg = (some "", some msg.content) := by
  have h1 : prefixForMessage c msg = some "" := by simp [prefixForMessage, h]
  refine ⟨h1, ?_, ?_⟩
  · rw [h1]
    simp [jsStartsWith_empty]
  · unfold splitPrefixFromContent
    rw [h1]
    simp [jsStartsWith_empty, jsDrop_zero]

/-- C9 witness: the direct message `"ping"`. -/
theorem dm_always_empty_prefix_witness :
    prefixForMessage exClient msgDmPing = some "" ∧
    ((prefixForMessage exClient msgDmPing).isSome
      && jsStartsWith msgDmPing.content ((prefixForMessage exClient msgDmPing).getD "")) = true ∧
    splitPrefixFromContent exClient msgDmPing = (some "", some "ping") :=
  dm_always_empty_prefix exClient msgDmPing rfl

/-! ### Claim C10: constructor defaults for the session flags -/

/-- C10: a constructor option that is absent or `null` sets `allowMention`
(resp. `ignoreBots`) to `true`, while an explicit `false` is preserved. -/
theorem constructor_option_defaults (o : Options) (uid : String) :
    (o.allowMention = none → (mkClient o uid).allowMention = true) ∧
    (o.allowMention = some false → (mkClient o uid).allowMention = false) ∧
    (o.ignoreBots = none → (mkClient o uid).ignoreBots = true) ∧
    (o.ignoreBots = some false → (mkClient o uid).ignoreBots = false) := by
  refine ⟨fun h => ?_, fun h => ?_, fun h => ?_, fun h => ?_⟩ <;> simp [mkClient, h]

/-- C10 witness: options with `allowMention` absent and `ignoreBots`
explicitly `false`. -/
theorem constructor_option_defaults_witness :
    (mkClient optsMixed "1").allowMention = true ∧
    (mkClient optsMixed "1").ignoreBots = false :=
  ⟨(constructor_option_defaults optsMixed "1").1 rfl,
   (constructor_option_defaults optsMixed "1").2.2.2 rfl⟩
